import Mathlib

/-!
# Verification of the doctor-lead-mvp core pipeline

This file embeds the data model and operations of the doctor-lead-mvp
repository (a healthcare lead management system: NPPES ingestion into a
store of lead records, a filtered/paginated query engine, a CSV export,
and a React frontend) and proves properties about them.

The repository's checked-in sources are the React/TypeScript frontend
(`frontend/src/...`) and the project README.  The Python backend
(`backend/src/services/npi_loader.py`, `lead_service.py`) is documented by
the README and by the specification; where a backend operation is needed it
is modelled from those documents, and each such definition says so in its
doc comment.  Frontend components (`Pagination.tsx`, `LeadsPage.tsx`) are
embedded directly from their TypeScript sources.

Records use the field names of the code's wire format (`id`, `npi`,
`name`, `phone`, `specialty`, `state`, `created_at`), which the
specification calls `identifier`, `naturalKey`, `displayName`, `phone`,
`specialtyCode`, `regionCode`, `createdAt`.
-/

namespace DoctorLead

/-- One canonical lead record, with the wire-format field names of
`LeadResponse` (frontend/src/types/lead.ts) and of the README's endpoint
contract.  `created_at` is kept as an opaque timestamp string. -/
structure CanonicalRecord where
  id : String
  npi : String
  name : String
  phone : Option String
  specialty : Option String
  state : Option String
  created_at : String
deriving DecidableEq, Repr

/-- The store, as the ordered list of records in the engine's fixed,
deterministic order (identifier ascending, which for this model is
insertion order: identifiers are system-assigned increasing). -/
abbrev Store := List CanonicalRecord

/-- Aggregate counts reported by an ingestion run. -/
structure IngestCounts where
  inserted : Nat
  duplicateSkipped : Nat
deriving DecidableEq, Repr

/-- Does some record in the store already carry this natural key (npi)? -/
def hasKey (store : Store) (k : String) : Bool :=
  store.any (fun r => r.npi == k)

/-- Modelled from the spec: the Deduplicator / Bulk Loader step of the
backend's ingestion pipeline (`backend/src/services/npi_loader.py`, not
checked in under `src/`).  Spec policy §4.2: first successful ingestion
wins — if the natural key already exists in the store the candidate is
discarded (no field overwritten) and counted as a duplicate-skip;
otherwise it is inserted and counted as inserted.  Processing is in input
order, so within one run the first candidate with a given key is kept. -/
def ingestRun : Store → List CanonicalRecord → IngestCounts → Store × IngestCounts
  | store, [], counts => (store, counts)
  | store, c :: cs, counts =>
    if hasKey store c.npi then
      ingestRun store cs { counts with duplicateSkipped := counts.duplicateSkipped + 1 }
    else
      ingestRun (store ++ [c]) cs { counts with inserted := counts.inserted + 1 }

/-- One ingestion run over a list of normalized candidates, starting from
zero counts. -/
def ingest (store : Store) (cands : List CanonicalRecord) : Store × IngestCounts :=
  ingestRun store cands ⟨0, 0⟩

/-- First-wins deduplication written directly from the spec's words
(§4.2), for comparison with the ingestion model: keep each candidate whose
key is not among the already-seen keys, first occurrence winning. -/
def keepFirstWins (seen : List String) : List CanonicalRecord → List CanonicalRecord
  | [] => []
  | c :: cs =>
    if seen.contains c.npi then keepFirstWins seen cs
    else c :: keepFirstWins (c.npi :: seen) cs

/-- The keys present in a store. -/
def storeKeys (store : Store) : List String := store.map (fun r => r.npi)

/-- A sequence of ingestion runs applied to a store (queries and exports
are read-only and appear below as pure functions of the store). -/
def applyRuns (store : Store) (runs : List (List CanonicalRecord)) : Store :=
  runs.foldl (fun s cs => (ingest s cs).1) store

/-- FilterSpec: the three independent optional query predicates, with the
code's parameter names (`state`, `specialty`, `search`; the spec calls
them `regionCode`, `specialtyCode`, `nameContains`). -/
structure FilterSpec where
  state : Option String
  specialty : Option String
  search : Option String
deriving DecidableEq, Repr

/-- Boolean list prefix test (used to express substring containment). -/
def isPrefixB : List Char → List Char → Bool
  | [], _ => true
  | _ :: _, [] => false
  | a :: as, b :: bs => a == b && isPrefixB as bs

/-- Boolean list substring (contiguous sublist) test. -/
def isInfixB (pat : List Char) : List Char → Bool
  | [] => isPrefixB pat []
  | b :: bs => isPrefixB pat (b :: bs) || isInfixB pat bs

/-- Lowercase a list of characters. -/
def lowerChars (l : List Char) : List Char := l.map Char.toLower

/-- Case-insensitive substring containment: the backend's
`name ILIKE '%search%'` (README: "Case-insensitive search on provider
name using ILIKE"), modelled as substring containment after lowercasing
both sides. -/
def containsCI (hay pat : String) : Bool :=
  isInfixB (lowerChars pat.data) (lowerChars hay.data)

/-- Modelled from the spec: predicate composition of the backend query
engine (`get_leads_with_count` in `backend/src/services/lead_service.py`,
not checked in under `src/`).  All present filters are conjunctive;
`state` and `specialty` are exact equality; `search` is case-insensitive
substring containment on the name (README: ILIKE). -/
def matchesFilter (f : FilterSpec) (r : CanonicalRecord) : Bool :=
  (match f.state with
   | none => true
   | some v => r.state == some v) &&
  (match f.specialty with
   | none => true
   | some v => r.specialty == some v) &&
  (match f.search with
   | none => true
   | some v => containsCI r.name v)

/-- All records of the store matching a FilterSpec, in the store's fixed
order. -/
def matchingRecords (store : Store) (f : FilterSpec) : List CanonicalRecord :=
  store.filter (fun r => matchesFilter f r)

/-- Query-path errors (spec §7). -/
inductive QueryError where
  | invalidPageRequest
deriving DecidableEq, Repr

/-- The query result shape `{ total, limit, offset, data }` of the README
endpoint contract and `LeadListResponse` (frontend/src/types/lead.ts). -/
structure PageResult where
  total : Nat
  limit : Nat
  offset : Nat
  data : List CanonicalRecord
deriving DecidableEq, Repr

/-- Modelled from the spec: the backend query engine (§4.4, not checked in
under `src/`).  Negative offset or non-positive limit is rejected with
`InvalidPageRequest` before touching the store; `limit` is clamped to the
configured maximum; `total` is the count of all matching records computed
independent of limit/offset; the page is the window
`[offset, offset+limit)` of the matching records in the fixed order. -/
def query (maxLimit : Nat) (store : Store) (f : FilterSpec) (limit offset : Int) :
    Except QueryError PageResult :=
  if offset < 0 ∨ limit ≤ 0 then .error .invalidPageRequest
  else
    let l := min limit.toNat maxLimit
    let m := matchingRecords store f
    .ok { total := m.length, limit := l, offset := offset.toNat,
          data := (m.drop offset.toNat).take l }

/-- The data page of a query, or `[]` on a rejected request. -/
def pageAt (maxLimit : Nat) (store : Store) (f : FilterSpec) (limit offset : Int) :
    List CanonicalRecord :=
  match query maxLimit store f limit offset with
  | .ok r => r.data
  | .error _ => []

/-- Number of pages needed to cover `total` records at `limit` per page
(ceiling division). -/
def numPages (total limit : Nat) : Nat := (total + limit - 1) / limit

/-- Does a CSV field value need quoting (contains the delimiter, a quote,
or a line break)? -/
def csvNeedsQuote (s : String) : Bool :=
  s.data.any (fun c => c == ',' || c == '"' || c == '\n' || c == '\r')

/-- Double every internal quote of a field value. -/
def csvEscapeChars : List Char → List Char
  | [] => []
  | c :: cs => if c = '"' then '"' :: '"' :: csvEscapeChars cs else c :: csvEscapeChars cs

/-- Encode one CSV field: values containing a comma, quote, or line break
are wrapped in quotes with internal quotes doubled; other values are
emitted verbatim. -/
def csvField (s : String) : String :=
  if csvNeedsQuote s then String.mk ('"' :: (csvEscapeChars s.data ++ ['"'])) else s

/-- Collapse doubled quotes back to single quotes (decoder for
`csvEscapeChars`). -/
def csvUnescapeChars : List Char → List Char
  | [] => []
  | [c] => [c]
  | c :: d :: cs =>
    if c = '"' ∧ d = '"' then '"' :: csvUnescapeChars cs
    else c :: csvUnescapeChars (d :: cs)

/-- Decode one CSV field: strip surrounding quotes and collapse doubled
quotes; unquoted fields are returned verbatim. -/
def csvParseField (s : String) : String :=
  match s.data with
  | [] => s
  | c :: rest => if c = '"' then String.mk (csvUnescapeChars rest.dropLast) else s

/-- An absent optional field renders as an empty CSV field. -/
def optField : Option String → String
  | none => ""
  | some s => s

/-- Modelled from the spec/README: the CSV header row.  The backend export
(`export_leads_to_csv`, not checked in under `src/`) is documented by the
README endpoint contract: "text/csv file download (leads.csv) with
id,npi,name,phone,specialty,state,created_at columns". -/
def exportHeader : String := "id,npi,name,phone,specialty,state,created_at"

/-- The seven field values of one record, in the export column order. -/
def exportFields (r : CanonicalRecord) : List String :=
  [r.id, r.npi, r.name, optField r.phone, optField r.specialty, optField r.state,
   r.created_at]

/-- One encoded CSV data row. -/
def exportRow (r : CanonicalRecord) : String :=
  String.intercalate "," ((exportFields r).map csvField)

/-- Modelled from the spec/README: the CSV export document as its list of
lines — the header row followed by one row per matching record, using the
same predicate composition as the query engine and no pagination. -/
def exportCsv (store : Store) (f : FilterSpec) : List String :=
  exportHeader :: (matchingRecords store f).map exportRow

/-- Frontend `Pagination.tsx`: `const safeLimit = limit > 0 ? limit : 1`. -/
def safeLimit (limit : Int) : Int := if limit > 0 then limit else 1

/-- Frontend `Pagination.tsx`:
`const currentPage = Math.floor(offset / safeLimit)`. -/
def currentPage (offset limit : Int) : Int := Int.fdiv offset (safeLimit limit)

/-- JavaScript `Math.ceil(a / b)` for integer `a` and positive `b`. -/
def ceilDiv (a b : Int) : Int := -(Int.fdiv (-a) b)

/-- Frontend `Pagination.tsx`:
`const totalPages = Math.max(1, Math.ceil(total / safeLimit))`. -/
def totalPages (total limit : Int) : Int := max 1 (ceilDiv total (safeLimit limit))

/-- Frontend `Pagination.tsx`: the displayed page number
`Math.min(currentPage + 1, totalPages)`. -/
def displayedPage (total limit offset : Int) : Int :=
  min (currentPage offset limit + 1) (totalPages total limit)

/-- Frontend `Pagination.tsx`: offset sent on a Previous click,
`Math.max(0, offset - safeLimit)`. -/
def prevOffset (limit offset : Int) : Int := max 0 (offset - safeLimit limit)

/-- Frontend `Pagination.tsx`: offset sent on a Next click,
`offset + safeLimit`. -/
def nextOffset (limit offset : Int) : Int := offset + safeLimit limit

/-- Frontend `LeadsPage.tsx`: `const DEFAULT_LIMIT = 50`. -/
def defaultLimit : Int := 50

/-- The query-relevant state of the `LeadsPage` component. -/
structure LeadsState where
  stateFilter : Option String
  specialtyFilter : Option String
  debouncedSearch : String
  limit : Int
  offset : Int
deriving DecidableEq, Repr

/-- The events that update `LeadsPage`'s query state: the three filter
inputs, the two pagination buttons, and the limit input. -/
inductive LeadsEvent where
  | setStateFilter (v : Option String)
  | setSpecialtyFilter (v : Option String)
  | setDebouncedSearch (v : String)
  | prevClicked
  | nextClicked
  | limitChanged (v : Int)
deriving DecidableEq, Repr

/-- Initial `LeadsPage` state (`useState` initializers). -/
def initLeadsState : LeadsState :=
  { stateFilter := none, specialtyFilter := none, debouncedSearch := "",
    limit := defaultLimit, offset := 0 }

/-- One state transition of `LeadsPage`.  A changed filter input triggers
the `useEffect(() => setOffset(0), [stateFilter, specialtyFilter,
debouncedSearch])` reset; React re-runs that effect only when a dependency
actually changed, hence the equality tests.  Previous/Next set the offset
computed by `Pagination.tsx`; the limit handler is
`(nextLimit) => setLimit(nextLimit || DEFAULT_LIMIT)`. -/
def leadsStep (s : LeadsState) : LeadsEvent → LeadsState
  | .setStateFilter v =>
    if v = s.stateFilter then s
    else { s with stateFilter := v, offset := 0 }
  | .setSpecialtyFilter v =>
    if v = s.specialtyFilter then s
    else { s with specialtyFilter := v, offset := 0 }
  | .setDebouncedSearch v =>
    if v = s.debouncedSearch then s
    else { s with debouncedSearch := v, offset := 0 }
  | .prevClicked => { s with offset := prevOffset s.limit s.offset }
  | .nextClicked => { s with offset := nextOffset s.limit s.offset }
  | .limitChanged v => { s with limit := if v = 0 then defaultLimit else v }

/-- The `LeadsPage` state reached after a sequence of events. -/
def applyLeadsEvents (evs : List LeadsEvent) : LeadsState :=
  evs.foldl leadsStep initLeadsState

/-- Is this event a change of one of the three filter inputs (value
different from the current one)? -/
def filterChanges (s : LeadsState) : LeadsEvent → Bool
  | .setStateFilter v => v != s.stateFilter
  | .setSpecialtyFilter v => v != s.specialtyFilter
  | .setDebouncedSearch v => v != s.debouncedSearch
  | _ => false

/-- Row from the spec's concrete duplicate scenario: first candidate with
natural key "1234567890". -/
def rowA : CanonicalRecord :=
  { id := "id-1", npi := "1234567890", name := "Dr. Alice Adams",
    phone := none, specialty := none, state := none,
    created_at := "2024-01-01T00:00:00Z" }

/-- Row from the spec's concrete duplicate scenario: second candidate with
the same natural key "1234567890" but different payload. -/
def rowB : CanonicalRecord :=
  { id := "id-2", npi := "1234567890", name := "Dr. Bob Brown",
    phone := some "5551234567", specialty := some "363LF0000X",
    state := some "TX", created_at := "2024-01-02T00:00:00Z" }

/-- Row from the spec's case-insensitive search scenario. -/
def rowSmith : CanonicalRecord :=
  { id := "id-3", npi := "9876543210", name := "Dr. Jane SMITH",
    phone := none, specialty := some "207RP1001X", state := some "CA",
    created_at := "2024-01-03T00:00:00Z" }

/-- A small concrete store used by witnesses. -/
def sampleStore : Store := [rowA, rowSmith]

/-! ## Ingestion lemmas -/

lemma hasKey_iff_mem_storeKeys (store : Store) (k : String) :
    hasKey store k = true ↔ k ∈ storeKeys store := by
  simp [hasKey, storeKeys, List.any_eq_true, beq_iff_eq]

lemma hasKey_append (s t : Store) (k : String) :
    hasKey (s ++ t) k = (hasKey s k || hasKey t k) := by
  simp [hasKey, List.any_append]

/-- `keepFirstWins` only depends on the membership of the seen-key list. -/
lemma keepFirstWins_congr (cs : List CanonicalRecord) :
    ∀ (s₁ s₂ : List String), (∀ k, k ∈ s₁ ↔ k ∈ s₂) →
      keepFirstWins s₁ cs = keepFirstWins s₂ cs := by
  induction cs with
  | nil => intro s₁ s₂ _; rfl
  | cons d ds ih =>
    intro s₁ s₂ hiff
    by_cases hd : d.npi ∈ s₁
    · have hd₂ : d.npi ∈ s₂ := (hiff d.npi).mp hd
      simp [keepFirstWins, hd, hd₂, ih s₁ s₂ hiff]
    · have h₁ : s₁.contains d.npi = false := by simpa using hd
      have h₂ : s₂.contains d.npi = false := by
        simpa using fun hm => hd ((hiff d.npi).mpr hm)
      simp only [keepFirstWins, h₁, h₂, Bool.false_eq_true, if_false]
      rw [ih (d.npi :: s₁) (d.npi :: s₂) (fun k => by simp [hiff k])]

/-- Characterization of the resulting store: the original store followed
by the first-wins deduplication of the candidates whose keys are new. -/
lemma ingestRun_store_eq (cands : List CanonicalRecord) :
    ∀ (store : Store) (counts : IngestCounts),
      (ingestRun store cands counts).1 = store ++ keepFirstWins (storeKeys store) cands := by
  induction cands with
  | nil => intro store counts; simp [ingestRun, keepFirstWins]
  | cons c cs ih =>
    intro store counts
    by_cases h : hasKey store c.npi = true
    · have hseen : (storeKeys store).contains c.npi = true := by
        simpa using (hasKey_iff_mem_storeKeys store c.npi).mp h
      simp only [ingestRun, h, if_true, keepFirstWins, hseen]
      exact ih store _
    · have hmem : ¬ c.npi ∈ storeKeys store := fun hm =>
        h ((hasKey_iff_mem_storeKeys store c.npi).mpr hm)
      have hseen : (storeKeys store).contains c.npi = false := by simpa using hmem
      have hfalse : hasKey store c.npi = false := by
        cases hb : hasKey store c.npi
        · rfl
        · exact absurd hb h
      simp only [ingestRun, hfalse, Bool.false_eq_true, if_false, keepFirstWins, hseen]
      rw [ih (store ++ [c])]
      have hkeys : storeKeys (store ++ [c]) = storeKeys store ++ [c.npi] := by
        simp [storeKeys]
      rw [hkeys, List.append_assoc, List.singleton_append]
      congr 2
      exact keepFirstWins_congr cs _ _ (fun k => by simp [List.mem_append, or_comm])

/-- The inserted count is the number of candidates kept by first-wins
deduplication against the keys already in the store. -/
lemma ingestRun_inserted (cands : List CanonicalRecord) :
    ∀ (store : Store) (counts : IngestCounts),
      (ingestRun store cands counts).2.inserted
        = counts.inserted + (keepFirstWins (storeKeys store) cands).length := by
  induction cands with
  | nil => intro store counts; simp [ingestRun, keepFirstWins]
  | cons c cs ih =>
    intro store counts
    by_cases h : hasKey store c.npi = true
    · have hseen : (storeKeys store).contains c.npi = true := by
        simpa using (hasKey_iff_mem_storeKeys store c.npi).mp h
      simp only [ingestRun, h, if_true, keepFirstWins, hseen]
      exact ih store _
    · have hmem : ¬ c.npi ∈ storeKeys store := fun hm =>
        h ((hasKey_iff_mem_storeKeys store c.npi).mpr hm)
      have hseen : (storeKeys store).contains c.npi = false := by simpa using hmem
      have hfalse : hasKey store c.npi = false := by
        cases hb : hasKey store c.npi
        · rfl
        · exact absurd hb h
      simp only [ingestRun, hfalse, Bool.false_eq_true, if_false, keepFirstWins, hseen]
      rw [ih (store ++ [c])]
      have hkeys : storeKeys (store ++ [c]) = storeKeys store ++ [c.npi] := by
        simp [storeKeys]
      rw [hkeys,
        keepFirstWins_congr cs (storeKeys store ++ [c.npi]) (c.npi :: storeKeys store)
          (fun k => by simp [List.mem_append, or_comm])]
      simp [List.length_cons]
      omega

/-- Every candidate is accounted for: inserted plus duplicate-skipped
equals the number of candidates processed. -/
lemma ingestRun_counts_total (cands : List CanonicalRecord) :
    ∀ (store : Store) (counts : IngestCounts),
      (ingestRun store cands counts).2.inserted
        + (ingestRun store cands counts).2.duplicateSkipped
        = counts.inserted + counts.duplicateSkipped + cands.length := by
  induction cands with
  | nil => intro store counts; simp [ingestRun]
  | cons c cs ih =>
    intro store counts
    by_cases h : hasKey store c.npi = true
    · simp only [ingestRun, h, if_true]
      rw [ih store]
      simp [List.length_cons]
      omega
    · have hfalse : hasKey store c.npi = false := by
        cases hb : hasKey store c.npi
        · rfl
        · exact absurd hb h
      simp only [ingestRun, hfalse, Bool.false_eq_true, if_false]
      rw [ih (store ++ [c])]
      simp [List.length_cons]
      omega

/-- Keys already present survive an ingestion run. -/
lemma hasKey_ingestRun (store : Store) (cands : List CanonicalRecord)
    (counts : IngestCounts) (k : String) (h : hasKey store k = true) :
    hasKey (ingestRun store cands counts).1 k = true := by
  rw [ingestRun_store_eq, hasKey_append, h, Bool.true_or]

/-- If every candidate's key is already present, the run changes nothing
and reports every candidate as a duplicate-skip. -/
lemma ingestRun_all_dup (cands : List CanonicalRecord) :
    ∀ (store : Store) (counts : IngestCounts),
      (∀ c ∈ cands, hasKey store c.npi = true) →
      ingestRun store cands counts
        = (store, ⟨counts.inserted, counts.duplicateSkipped + cands.length⟩) := by
  induction cands with
  | nil => intro store counts _; simp [ingestRun]
  | cons c cs ih =>
    intro store counts hall
    have hc : hasKey store c.npi = true := hall c (List.mem_cons_self c cs)
    simp only [ingestRun, hc, if_true]
    rw [ih store _ (fun d hd => hall d (List.mem_cons_of_mem c hd))]
    simp [List.length_cons]
    omega

/-- After a run, every candidate's key is present in the resulting store. -/
lemma ingestRun_key_present (cands : List CanonicalRecord) :
    ∀ (store : Store) (counts : IngestCounts) (c : CanonicalRecord), c ∈ cands →
      hasKey (ingestRun store cands counts).1 c.npi = true := by
  induction cands with
  | nil => intro store counts c hc; exact absurd hc (List.not_mem_nil c)
  | cons d ds ih =>
    intro store counts c hc
    by_cases h : hasKey store d.npi = true
    · simp only [ingestRun, h, if_true]
      rcases List.mem_cons.mp hc with hcd | hcs
      · subst hcd; exact hasKey_ingestRun store ds _ c.npi h
      · exact ih store _ c hcs
    · have hfalse : hasKey store d.npi = false := by
        cases hb : hasKey store d.npi
        · rfl
        · exact absurd hb h
      simp only [ingestRun, hfalse, Bool.false_eq_true, if_false]
      rcases List.mem_cons.mp hc with hcd | hcs
      · rw [hcd]
        refine hasKey_ingestRun (store ++ [d]) ds _ d.npi ?_
        rw [hasKey_append]
        have hdd : hasKey [d] d.npi = true := by simp [hasKey]
        rw [hdd, Bool.or_true]
      · exact ih (store ++ [d]) _ c hcs

/-- The new keys produced by `keepFirstWins` are pairwise distinct and
disjoint from the seen keys. -/
lemma keepFirstWins_keys_nodup (cs : List CanonicalRecord) :
    ∀ (seen : List String),
      ((keepFirstWins seen cs).map (fun r => r.npi)).Nodup
      ∧ ∀ k ∈ (keepFirstWins seen cs).map (fun r => r.npi), ¬ k ∈ seen := by
  induction cs with
  | nil => intro seen; simp [keepFirstWins]
  | cons d ds ih =>
    intro seen
    by_cases hd : d.npi ∈ seen
    · have hc : seen.contains d.npi = true := by simpa using hd
      simp only [keepFirstWins, hc, if_true]
      exact ih seen
    · have hc : seen.contains d.npi = false := by simpa using hd
      simp only [keepFirstWins, hc, Bool.false_eq_true, if_false, List.map_cons]
      obtain ⟨hnodup, hdisj⟩ := ih (d.npi :: seen)
      constructor
      · refine List.nodup_cons.mpr ⟨?_, hnodup⟩
        intro hmem
        exact hdisj d.npi hmem (List.mem_cons_self _ _)
      · intro k hk hkseen
        rcases List.mem_cons.mp hk with hkd | hkrest
        · subst hkd; exact hd hkseen
        · exact hdisj k hkrest (List.mem_cons_of_mem _ hkseen)

/-- One ingestion run preserves pairwise distinctness of natural keys. -/
lemma ingest_preserves_nodup (store : Store) (cands : List CanonicalRecord)
    (h : (storeKeys store).Nodup) : (storeKeys (ingest store cands).1).Nodup := by
  have hst : (ingest store cands).1 = store ++ keepFirstWins (storeKeys store) cands :=
    ingestRun_store_eq cands store ⟨0, 0⟩
  rw [hst]
  have hkeys : storeKeys (store ++ keepFirstWins (storeKeys store) cands)
      = storeKeys store ++ ((keepFirstWins (storeKeys store) cands).map (fun r => r.npi)) := by
    simp [storeKeys]
  rw [hkeys]
  obtain ⟨hnodup, hdisj⟩ := keepFirstWins_keys_nodup cands (storeKeys store)
  refine List.Nodup.append h hnodup ?_
  intro k hk₁ hk₂
  exact hdisj k hk₂ hk₁

/-! ## Query engine lemmas -/

/-- A valid page request is answered with the matching count as `total`
and the `[offset, offset+limit)` window of the matching records. -/
lemma query_ok (maxLimit : Nat) (store : Store) (f : FilterSpec) (limit offset : Int)
    (hoff : 0 ≤ offset) (hlim : 0 < limit) :
    query maxLimit store f limit offset
      = .ok { total := (matchingRecords store f).length,
              limit := min limit.toNat maxLimit,
              offset := offset.toNat,
              data := ((matchingRecords store f).drop offset.toNat).take
                        (min limit.toNat maxLimit) } := by
  unfold query
  rw [if_neg (not_or.mpr ⟨not_lt.mpr hoff, not_le.mpr hlim⟩)]

/-- The data window of a valid page request whose limit is within the
configured maximum. -/
lemma pageAt_eq (maxLimit : Nat) (store : Store) (f : FilterSpec) (L o : Nat)
    (hL : 0 < L) (hmax : L ≤ maxLimit) :
    pageAt maxLimit store f (L : Int) (o : Int)
      = ((matchingRecords store f).drop o).take L := by
  unfold pageAt
  rw [query_ok maxLimit store f (L : Int) (o : Int) (Int.natCast_nonneg o)
    (by exact_mod_cast hL)]
  simp [Int.toNat_natCast, Nat.min_eq_left hmax]

/-- Splitting a list into `n` consecutive chunks of size `L` and
concatenating them gives back the list, provided `n` chunks suffice. -/
lemma chunks_flatten (n : Nat) :
    ∀ (l : List CanonicalRecord) (L : Nat), 0 < L → l.length ≤ n * L →
      ((List.range n).map (fun i => (l.drop (i * L)).take L)).flatten = l := by
  induction n with
  | zero =>
    intro l L _ hlen
    have h0 : l = [] := List.eq_nil_of_length_eq_zero (by omega)
    simp [h0]
  | succ n ih =>
    intro l L hL hlen
    rw [List.range_succ_eq_map, List.map_cons, List.map_map, List.flatten_cons]
    have hdrop : ∀ (m k : Nat), l.drop (m + k) = (l.drop m).drop k := by
      intro m k
      rw [List.drop_drop]
    have htail : List.map ((fun i => (l.drop (i * L)).take L) ∘ Nat.succ) (List.range n)
        = List.map (fun i => (((l.drop L).drop (i * L)).take L)) (List.range n) := by
      refine List.map_congr_left ?_
      intro i _
      simp only [Function.comp_apply]
      have hm : Nat.succ i * L = L + i * L := by
        rw [Nat.succ_mul]
        omega
      rw [hm, hdrop L (i * L)]
    rw [htail, ih (l.drop L) L hL (by
      rw [List.length_drop]
      have hsm : (n + 1) * L = n * L + L := Nat.succ_mul n L
      omega)]
    rw [Nat.zero_mul, List.drop_zero]
    exact List.take_append_drop L l

/-- `numPages` pages of size `L` cover any list of `total` records. -/
lemma le_numPages_mul (total L : Nat) (hL : 0 < L) : total ≤ numPages total L * L := by
  unfold numPages
  have h := Nat.div_add_mod (total + L - 1) L
  have hm := Nat.mod_lt (total + L - 1) hL
  rw [Nat.mul_comm]
  omega

/-! ## CSV encoding lemmas -/

lemma csvEscapeChars_ne_nil (c : Char) (cs : List Char) : csvEscapeChars (c :: cs) ≠ [] := by
  by_cases h : c = '"' <;> simp [csvEscapeChars, h]

/-- Collapsing doubled quotes undoes quote doubling: the escape used by
the field encoder loses no information. -/
lemma csvUnescape_escape (l : List Char) : csvUnescapeChars (csvEscapeChars l) = l := by
  induction l with
  | nil => rfl
  | cons c cs ih =>
    by_cases h : c = '"'
    · subst h
      simp only [csvEscapeChars, if_pos rfl]
      simp [csvUnescapeChars, ih]
    · simp only [csvEscapeChars, if_neg h]
      cases hcs : csvEscapeChars cs with
      | nil =>
        cases cs with
        | nil => simp [csvUnescapeChars]
        | cons d ds => exact absurd hcs (csvEscapeChars_ne_nil d ds)
      | cons e es =>
        have hstep : csvUnescapeChars (c :: e :: es) = c :: csvUnescapeChars (e :: es) := by
          simp [csvUnescapeChars, h]
        calc csvUnescapeChars (c :: e :: es)
            = c :: csvUnescapeChars (e :: es) := hstep
          _ = c :: csvUnescapeChars (csvEscapeChars cs) := by rw [hcs]
          _ = c :: cs := by rw [ih]

/-- Field decoding is a left inverse of field encoding: quoting with
doubled internal quotes is faithful. -/
lemma csvParseField_csvField (s : String) : csvParseField (csvField s) = s := by
  by_cases h : csvNeedsQuote s = true
  · simp only [csvField, h, if_true]
    show csvParseField (String.mk ('"' :: (csvEscapeChars s.data ++ ['"']))) = s
    unfold csvParseField
    simp only [if_true]
    rw [List.dropLast_concat, csvUnescape_escape]
  · have hfalse : csvNeedsQuote s = false := by
      cases hb : csvNeedsQuote s
      · rfl
      · exact absurd hb h
    simp only [csvField, hfalse, Bool.false_eq_true, if_false]
    unfold csvParseField
    cases hd : s.data with
    | nil => rfl
    | cons c rest =>
      have hc : ¬ c = '"' := by
        intro hcq
        have : csvNeedsQuote s = true := by
          unfold csvNeedsQuote
          rw [hd, hcq]
          simp
        rw [this] at hfalse
        exact Bool.true_eq_false.mp hfalse
      simp [hc]

/-! ## Substring lemmas -/

lemma isPrefixB_iff (p : List Char) :
    ∀ l, isPrefixB p l = true ↔ ∃ t, l = p ++ t := by
  induction p with
  | nil =>
    intro l
    simp [isPrefixB]
  | cons a as ih =>
    intro l
    cases l with
    | nil => simp [isPrefixB]
    | cons b bs =>
      simp only [isPrefixB, Bool.and_eq_true, beq_iff_eq]
      constructor
      · rintro ⟨hab, hpre⟩
        obtain ⟨t, ht⟩ := (ih bs).mp hpre
        exact ⟨t, by simp [ht, hab]⟩
      · rintro ⟨t, ht⟩
        rw [List.cons_append] at ht
        injection ht with h1 h2
        exact ⟨h1.symm, (ih bs).mpr ⟨t, h2⟩⟩

/-- `isInfixB` decides contiguous-substring containment. -/
lemma isInfixB_iff (p : List Char) (l : List Char) :
    isInfixB p l = true ↔ ∃ u v, l = u ++ p ++ v := by
  induction l with
  | nil =>
    simp only [isInfixB, isPrefixB_iff]
    constructor
    · rintro ⟨t, ht⟩
      exact ⟨[], t, by simp [← ht]⟩
    · rintro ⟨u, v, huv⟩
      have h := huv.symm
      simp only [List.append_eq_nil] at h
      obtain ⟨⟨hu, hp⟩, hv⟩ := h
      exact ⟨v, by simp [hp, hv]⟩
  | cons b bs ih =>
    simp only [isInfixB, Bool.or_eq_true, isPrefixB_iff, ih]
    constructor
    · rintro (⟨t, ht⟩ | ⟨u, v, huv⟩)
      · exact ⟨[], t, by simpa using ht⟩
      · exact ⟨b :: u, v, by simp [huv]⟩
    · rintro ⟨u, v, huv⟩
      cases u with
      | nil =>
        left
        exact ⟨v, by simpa using huv⟩
      | cons x u' =>
        right
        rw [List.cons_append, List.cons_append] at huv
        injection huv with h1 h2
        exact ⟨u', v, h2⟩

/-- `containsCI` holds exactly when the lowercased needle occurs
contiguously inside the lowercased haystack. -/
lemma containsCI_iff (hay pat : String) :
    containsCI hay pat = true
      ↔ ∃ u v, lowerChars hay.data = u ++ lowerChars pat.data ++ v :=
  isInfixB_iff _ _

/-! ## Frontend state lemmas -/

lemma one_le_safeLimit (limit : Int) : 1 ≤ safeLimit limit := by
  unfold safeLimit
  split <;> omega

lemma leadsStep_offset_nonneg (s : LeadsState) (e : LeadsEvent) (h : 0 ≤ s.offset) :
    0 ≤ (leadsStep s e).offset := by
  cases e with
  | setStateFilter v =>
    by_cases hv : v = s.stateFilter <;> simp [leadsStep, hv, h]
  | setSpecialtyFilter v =>
    by_cases hv : v = s.specialtyFilter <;> simp [leadsStep, hv, h]
  | setDebouncedSearch v =>
    by_cases hv : v = s.debouncedSearch <;> simp [leadsStep, hv, h]
  | prevClicked =>
    simp only [leadsStep, prevOffset]
    exact le_max_left 0 _
  | nextClicked =>
    simp only [leadsStep, nextOffset]
    have := one_le_safeLimit s.limit
    omega
  | limitChanged v => simpa [leadsStep] using h

lemma foldl_leadsStep_offset_nonneg (evs : List LeadsEvent) :
    ∀ (s : LeadsState), 0 ≤ s.offset → 0 ≤ (evs.foldl leadsStep s).offset := by
  induction evs with
  | nil => intro s h; exact h
  | cons e es ih =>
    intro s h
    exact ih (leadsStep s e) (leadsStep_offset_nonneg s e h)

/-! ## Claim theorems -/

/-- C1: Duplicate resolution is deterministic first-wins: a candidate
whose natural key already exists in the store is discarded with no field
overwritten and counted as a duplicate-skip (not an error); within a run
the resulting store is the old store followed by the first-occurrence
deduplication of the new-key candidates (so of two candidates sharing a
key the first in input order is kept), the inserted count is the number
of kept candidates, every candidate is either inserted or
duplicate-skipped, and ingesting two rows with identical natural key
"1234567890" in one run yields inserted=1, duplicateSkipped=1 with only
the first row stored. -/
theorem C1_dedup_first_wins (store : Store) (cands : List CanonicalRecord)
    (c : CanonicalRecord) (hdup : hasKey store c.npi = true) :
    ingest store [c] = (store, ⟨0, 1⟩)
    ∧ (ingest store cands).1 = store ++ keepFirstWins (storeKeys store) cands
    ∧ (ingest store cands).2.inserted = (keepFirstWins (storeKeys store) cands).length
    ∧ (ingest store cands).2.inserted + (ingest store cands).2.duplicateSkipped
        = cands.length
    ∧ (ingest [] [rowA, rowB]).2 = ⟨1, 1⟩
    ∧ (ingest [] [rowA, rowB]).1 = [rowA] := by
  refine ⟨?_, ingestRun_store_eq cands store ⟨0, 0⟩, ?_, ?_, by decide, by decide⟩
  · unfold ingest
    simp [ingestRun, hdup]
  · simpa using ingestRun_inserted cands store ⟨0, 0⟩
  · simpa using ingestRun_counts_total cands store ⟨0, 0⟩

theorem C1_dedup_first_wins_witness :
    hasKey sampleStore rowB.npi = true
    ∧ ingest sampleStore [rowB] = (sampleStore, ⟨0, 1⟩) :=
  ⟨by decide, (C1_dedup_first_wins sampleStore [rowB] rowB (by decide)).1⟩

/-- C2: for a fixed FilterSpec and fixed store, concatenating the pages
returned by the query engine at offsets 0, L, 2L, … (enough pages to
cover the whole matching count) yields exactly the full matching record
set, with no duplicate and no missing record, in the fixed order.
Determinism of repeated queries is definitional here: `query` is a pure
function of the store, filter, and page request. -/
theorem C2_pagination_partition (maxLimit : Nat) (store : Store) (f : FilterSpec)
    (L : Nat) (hL : 0 < L) (hmax : L ≤ maxLimit) :
    ((List.range (numPages (matchingRecords store f).length L)).map
        (fun i => pageAt maxLimit store f (L : Int) ((i * L : Nat) : Int))).flatten
      = matchingRecords store f := by
  have hpages :
      (List.range (numPages (matchingRecords store f).length L)).map
          (fun i => pageAt maxLimit store f (L : Int) ((i * L : Nat) : Int))
        = (List.range (numPages (matchingRecords store f).length L)).map
            (fun i => ((matchingRecords store f).drop (i * L)).take L) :=
    List.map_congr_left (fun i _ => pageAt_eq maxLimit store f L (i * L) hL hmax)
  rw [hpages]
  exact chunks_flatten (numPages (matchingRecords store f).length L)
    (matchingRecords store f) L hL
    (le_numPages_mul (matchingRecords store f).length L hL)

theorem C2_pagination_partition_witness :
    0 < 1 ∧ 1 ≤ 50
    ∧ ((List.range (numPages (matchingRecords sampleStore ⟨none, none, none⟩).length 1)).map
        (fun i => pageAt 50 sampleStore ⟨none, none, none⟩ ((1 : Nat) : Int)
          ((i * 1 : Nat) : Int))).flatten
      = matchingRecords sampleStore ⟨none, none, none⟩ :=
  ⟨by decide, by decide,
    C2_pagination_partition 50 sampleStore ⟨none, none, none⟩ 1 (by decide) (by decide)⟩

/-- C3: ingestion is idempotent: re-running a run's candidates against
the store that already contains its result produces zero net new records
(the store is unchanged, so in particular no createdAt value changes) and
reports every candidate as a duplicate-skip. -/
theorem C3_ingest_idempotent (store : Store) (cands : List CanonicalRecord) :
    (ingest (ingest store cands).1 cands).1 = (ingest store cands).1
    ∧ (ingest (ingest store cands).1 cands).2 = ⟨0, cands.length⟩
    ∧ ((ingest (ingest store cands).1 cands).1.map (fun r => r.created_at))
        = ((ingest store cands).1.map (fun r => r.created_at)) := by
  have hall : ∀ c ∈ cands, hasKey (ingest store cands).1 c.npi = true :=
    fun c hc => ingestRun_key_present cands store ⟨0, 0⟩ c hc
  have h := ingestRun_all_dup cands (ingest store cands).1 ⟨0, 0⟩ hall
  simp only [Nat.zero_add] at h
  refine ⟨?_, ?_, ?_⟩
  · show (ingestRun (ingest store cands).1 cands ⟨0, 0⟩).1 = (ingest store cands).1
    rw [h]
  · show (ingestRun (ingest store cands).1 cands ⟨0, 0⟩).2 = ⟨0, cands.length⟩
    rw [h]
  · show ((ingestRun (ingest store cands).1 cands ⟨0, 0⟩).1.map (fun r => r.created_at))
        = ((ingest store cands).1.map (fun r => r.created_at))
    rw [h]

/-- C4: naturalKey uniqueness is an invariant: starting from a store with
pairwise-distinct natural keys, after any sequence of ingestion runs (the
only operations that write; queries and exports are pure read-only
functions of the store) the natural keys are still pairwise distinct. -/
theorem C4_naturalKey_unique (store : Store) (runs : List (List CanonicalRecord))
    (h : (storeKeys store).Nodup) :
    (storeKeys (applyRuns store runs)).Nodup := by
  induction runs generalizing store with
  | nil => simpa [applyRuns] using h
  | cons cs rest ih =>
    have h1 : (storeKeys (ingest store cs).1).Nodup := ingest_preserves_nodup store cs h
    simpa [applyRuns] using ih (ingest store cs).1 h1

theorem C4_naturalKey_unique_witness :
    (storeKeys ([] : Store)).Nodup
    ∧ (storeKeys (applyRuns [] [[rowA, rowB], [rowB]])).Nodup :=
  ⟨by decide, C4_naturalKey_unique [] [[rowA, rowB], [rowB]] (by decide)⟩

/-- C5 counterexample: the claim's header row
`id,natural_key,name,phone,specialty,region,created_at` is not the export
header; the README's endpoint contract fixes the columns as
`id,npi,name,phone,specialty,state,created_at`, and that is the first row
of every export. -/
theorem C5_export_header_counterexample :
    (exportCsv [] ⟨none, none, none⟩).head? = some exportHeader
    ∧ exportHeader ≠ "id,natural_key,name,phone,specialty,region,created_at" := by
  exact ⟨rfl, by decide⟩

/-- C5 (amended): the export is a comma-separated document whose header
row is exactly `id,npi,name,phone,specialty,state,created_at`; every data
row is one matching record's seven fields encoded in that same column
order; a field value containing a comma, quote, or line break is wrapped
in quotes with internal quotes doubled (and this quoting is faithful:
decoding recovers the value); other values are emitted verbatim; an
absent optional field renders as an empty field, not the literal word
"null". -/
theorem C5_export_format (store : Store) (f : FilterSpec) (s : String)
    (r : CanonicalRecord) :
    (exportCsv store f).head? = some "id,npi,name,phone,specialty,state,created_at"
    ∧ (exportCsv store f).tail = (matchingRecords store f).map exportRow
    ∧ exportRow r = String.intercalate ","
        ([r.id, r.npi, r.name, optField r.phone, optField r.specialty, optField r.state,
          r.created_at].map csvField)
    ∧ (csvNeedsQuote s = true →
        csvField s = String.mk ('"' :: (csvEscapeChars s.data ++ ['"'])))
    ∧ (csvNeedsQuote s = false → csvField s = s)
    ∧ csvParseField (csvField s) = s
    ∧ optField none = "" ∧ optField none ≠ "null" := by
  refine ⟨rfl, rfl, rfl, ?_, ?_, csvParseField_csvField s, rfl, by decide⟩
  · intro h
    simp [csvField, h]
  · intro h
    simp [csvField, h]

theorem C5_export_format_witness :
    csvNeedsQuote "a,\"b" = true
    ∧ csvField "a,\"b" = String.mk ('"' :: (csvEscapeChars "a,\"b".data ++ ['"']))
    ∧ csvParseField (csvField "a,\"b") = "a,\"b" :=
  ⟨by decide,
    (C5_export_format [] ⟨none, none, none⟩ "a,\"b" rowA).2.2.2.1 (by decide),
    (C5_export_format [] ⟨none, none, none⟩ "a,\"b" rowA).2.2.2.2.2.1⟩

/-- C6: for every FilterSpec and valid PageRequest the query returns a
result of shape `{ total, limit, offset, data }` whose `total` is the
count of all records matching the composed predicate, evaluated
independent of limit and offset (two different valid page requests see
the same total). -/
theorem C6_total_independent (maxLimit : Nat) (store : Store) (f : FilterSpec)
    (l₁ o₁ l₂ o₂ : Int) (ho₁ : 0 ≤ o₁) (hl₁ : 0 < l₁) (ho₂ : 0 ≤ o₂) (hl₂ : 0 < l₂) :
    ∃ r₁ r₂ : PageResult,
      query maxLimit store f l₁ o₁ = .ok r₁
      ∧ query maxLimit store f l₂ o₂ = .ok r₂
      ∧ r₁.total = (matchingRecords store f).length
      ∧ r₂.total = r₁.total
      ∧ r₁.limit = min l₁.toNat maxLimit
      ∧ r₁.offset = o₁.toNat
      ∧ r₁.data
          = ((matchingRecords store f).drop o₁.toNat).take (min l₁.toNat maxLimit) :=
  ⟨_, _, query_ok maxLimit store f l₁ o₁ ho₁ hl₁,
    query_ok maxLimit store f l₂ o₂ ho₂ hl₂, rfl, rfl, rfl, rfl, rfl⟩

theorem C6_total_independent_witness :
    0 ≤ (0 : Int) ∧ 0 < (2 : Int) ∧ 0 ≤ (1 : Int) ∧ 0 < (5 : Int)
    ∧ ∃ r₁ r₂ : PageResult,
        query 50 sampleStore ⟨some "CA", none, none⟩ 2 0 = .ok r₁
        ∧ query 50 sampleStore ⟨some "CA", none, none⟩ 5 1 = .ok r₂
        ∧ r₁.total = (matchingRecords sampleStore ⟨some "CA", none, none⟩).length
        ∧ r₂.total = r₁.total
        ∧ r₁.limit = min (2 : Int).toNat 50
        ∧ r₁.offset = (0 : Int).toNat
        ∧ r₁.data = ((matchingRecords sampleStore ⟨some "CA", none, none⟩).drop
            (0 : Int).toNat).take (min (2 : Int).toNat 50) :=
  ⟨by decide, by decide, by decide, by decide,
    C6_total_independent 50 sampleStore ⟨some "CA", none, none⟩ 2 0 5 1
      (by decide) (by decide) (by decide) (by decide)⟩

/-- C7: all present filters combine conjunctively, state and specialty
match by exact equality, and the name search matches by case-insensitive
substring containment; in particular the stored name "Dr. Jane SMITH" is
matched by the search term "smith". -/
theorem C7_conjunctive_filters (f : FilterSpec) (r : CanonicalRecord) :
    (matchesFilter f r = true ↔
      ((∀ v, f.state = some v → r.state = some v)
        ∧ (∀ v, f.specialty = some v → r.specialty = some v)
        ∧ (∀ v, f.search = some v →
            ∃ u w, lowerChars r.name.data = u ++ lowerChars v.data ++ w)))
    ∧ containsCI "Dr. Jane SMITH" "smith" = true
    ∧ matchesFilter ⟨none, none, some "smith"⟩ rowSmith = true := by
  refine ⟨?_, by decide, by decide⟩
  unfold matchesFilter
  cases hst : f.state <;> cases hsp : f.specialty <;> cases hse : f.search <;>
    simp [Bool.and_eq_true, beq_iff_eq, containsCI_iff, and_assoc]

/-- C8: a PageRequest with negative offset or non-positive limit is
rejected with InvalidPageRequest independent of the store contents
(before touching the store); a limit above the configured maximum is
clamped to that maximum; and an offset at or beyond the total yields an
empty page (not an error) with the unchanged total. -/
theorem C8_page_request_validation (maxLimit : Nat) (store : Store) (f : FilterSpec)
    (l o : Int) :
    ((o < 0 ∨ l ≤ 0) →
      ∀ s' : Store, query maxLimit s' f l o = .error .invalidPageRequest)
    ∧ (0 ≤ o → 0 < l → maxLimit ≤ l.toNat →
        ∃ r : PageResult, query maxLimit store f l o = .ok r ∧ r.limit = maxLimit)
    ∧ (0 ≤ o → 0 < l → (matchingRecords store f).length ≤ o.toNat →
        ∃ r : PageResult, query maxLimit store f l o = .ok r ∧ r.data = []
          ∧ r.total = (matchingRecords store f).length) := by
  refine ⟨?_, ?_, ?_⟩
  · intro h s'
    unfold query
    rw [if_pos h]
  · intro ho hl hml
    refine ⟨_, query_ok maxLimit store f l o ho hl, ?_⟩
    simp [Nat.min_eq_right hml]
  · intro ho hl hlen
    refine ⟨_, query_ok maxLimit store f l o ho hl, ?_, rfl⟩
    simp [List.drop_eq_nil_of_le hlen]

theorem C8_page_request_validation_witness :
    ((-1 : Int) < 0 ∨ (10 : Int) ≤ 0)
    ∧ query 50 sampleStore ⟨none, none, none⟩ 10 (-1) = .error .invalidPageRequest
    ∧ (∃ r : PageResult, query 50 sampleStore ⟨none, none, none⟩ 60 0 = .ok r
        ∧ r.limit = 50)
    ∧ (∃ r : PageResult, query 50 sampleStore ⟨none, none, none⟩ 10 99 = .ok r
        ∧ r.data = []
        ∧ r.total = (matchingRecords sampleStore ⟨none, none, none⟩).length) :=
  ⟨Or.inl (by decide),
    (C8_page_request_validation 50 sampleStore ⟨none, none, none⟩ 10 (-1)).1
      (Or.inl (by decide)) sampleStore,
    (C8_page_request_validation 50 sampleStore ⟨none, none, none⟩ 60 0).2.1
      (by decide) (by decide) (by decide),
    (C8_page_request_validation 50 sampleStore ⟨none, none, none⟩ 10 99).2.2
      (by decide) (by decide) (by decide)⟩

/-- C9: the frontend Pagination component is total and well-formed for
every props with non-negative total and offset and any integer limit: the
substituted safe limit is at least 1 (so no division by zero occurs), the
computed total page count is at least 1 even when total is 0, and the
displayed current page number is at least 1 and never exceeds the
displayed total page count. -/
theorem C9_pagination_display_safe (total limit offset : Int)
    (htotal : 0 ≤ total) (hoffset : 0 ≤ offset) :
    1 ≤ safeLimit limit
    ∧ 1 ≤ totalPages total limit
    ∧ 1 ≤ displayedPage total limit offset
    ∧ displayedPage total limit offset ≤ totalPages total limit := by
  have hsl := one_le_safeLimit limit
  have hcp : 0 ≤ currentPage offset limit := Int.fdiv_nonneg hoffset (by omega)
  refine ⟨hsl, le_max_left 1 _, ?_, min_le_right _ _⟩
  exact le_min (by omega) (le_max_left 1 _)

theorem C9_pagination_display_safe_witness :
    0 ≤ (0 : Int) ∧ 0 ≤ (120 : Int)
    ∧ 1 ≤ safeLimit (-7)
    ∧ 1 ≤ totalPages 0 (-7)
    ∧ 1 ≤ displayedPage 0 (-7) 120
    ∧ displayedPage 0 (-7) 120 ≤ totalPages 0 (-7) :=
  ⟨by decide, by decide,
    (C9_pagination_display_safe 0 (-7) 120 (by decide) (by decide)).1,
    (C9_pagination_display_safe 0 (-7) 120 (by decide) (by decide)).2.1,
    (C9_pagination_display_safe 0 (-7) 120 (by decide) (by decide)).2.2.1,
    (C9_pagination_display_safe 0 (-7) 120 (by decide) (by decide)).2.2.2⟩

/-- C10: whenever any filter input of LeadsPage changes (state filter,
specialty filter, or debounced search term), the pagination offset is
reset to zero, so the query issued for the newly changed filter
combination starts from the first page; and the offset held by the page
state — the offset passed to getLeads — is never negative in any
reachable state. -/
theorem C10_filter_reset (s : LeadsState) (e : LeadsEvent) (evs : List LeadsEvent)
    (hchange : filterChanges s e = true) :
    (leadsStep s e).offset = 0
    ∧ 0 ≤ (applyLeadsEvents evs).offset := by
  constructor
  · cases e with
    | setStateFilter v =>
      have hv : ¬ v = s.stateFilter := by
        simpa [filterChanges, bne_iff_ne] using hchange
      simp [leadsStep, hv]
    | setSpecialtyFilter v =>
      have hv : ¬ v = s.specialtyFilter := by
        simpa [filterChanges, bne_iff_ne] using hchange
      simp [leadsStep, hv]
    | setDebouncedSearch v =>
      have hv : ¬ v = s.debouncedSearch := by
        simpa [filterChanges, bne_iff_ne] using hchange
      simp [leadsStep, hv]
    | prevClicked => simp [filterChanges] at hchange
    | nextClicked => simp [filterChanges] at hchange
    | limitChanged v => simp [filterChanges] at hchange
  · exact foldl_leadsStep_offset_nonneg evs initLeadsState (by simp [initLeadsState])

theorem C10_filter_reset_witness :
    filterChanges initLeadsState (.setStateFilter (some "TX")) = true
    ∧ (leadsStep initLeadsState (.setStateFilter (some "TX"))).offset = 0
    ∧ 0 ≤ (applyLeadsEvents
        [.setStateFilter (some "TX"), .nextClicked, .prevClicked]).offset :=
  ⟨by decide,
    (C10_filter_reset initLeadsState (.setStateFilter (some "TX"))
      [.setStateFilter (some "TX"), .nextClicked, .prevClicked] (by decide)).1,
    (C10_filter_reset initLeadsState (.setStateFilter (some "TX"))
      [.setStateFilter (some "TX"), .nextClicked, .prevClicked] (by decide)).2⟩

end DoctorLead
